import Mathlib

/-!
Verification of the soccer-odds reshaping pipeline (a Cloudflare Worker that
fetches odds data through a fetch relay, normalizes it and emits a typed
JSON array).

The JavaScript source is shallowly embedded:
* JS numbers are modeled as `Int` (every numeric field this pipeline consumes
  is an integer cents-like value; division by 100 is modeled exactly and its
  JS string rendering is reproduced by `renderVal`).
* JS values flowing through the untyped payload are modeled by `JsVal`
  (a mutual inductive so that decidable equality is kernel-computable).
* Thrown exceptions are modeled with `Except`; the source's `try/catch`
  blocks become explicit handlers.
* The network call and `JSON.parse` are external effects; they enter the
  embedding as an explicit `FetchEnv` describing the outcome of the request
  and the parse oracle applied to the cleaned body text.
-/

/-! ## Decimal rendering of numbers (JS `String(n)`) -/

/-- The decimal digit character for `d` (`0 ≤ d ≤ 9`), i.e. code point `48 + d`. -/
def digitChar (d : Nat) : Char := Char.ofNat (48 + d)

/-- Fuel-driven decimal digit expansion of a natural number, most significant
digit first.  The fuel only serves to make the recursion structural. -/
def natDigitsAux : Nat → Nat → List Char
  | 0, _ => []
  | fuel + 1, n =>
    if n < 10 then [digitChar n]
    else natDigitsAux fuel (n / 10) ++ [digitChar (n % 10)]

/-- Decimal digits of `n`, most significant first (`natDigits 120 = "120".data`). -/
def natDigits (n : Nat) : List Char := natDigitsAux (n + 1) n

/-- JS `String(n)` for a natural number. -/
def renderNat (n : Nat) : String := String.mk (natDigits n)

/-- Character list of JS `String(n)` for an integer. -/
def intChars (n : Int) : List Char :=
  if n < 0 then '-' :: natDigits n.natAbs else natDigits n.toNat

/-- JS `String(n)` for an integer. -/
def renderInt (n : Int) : String := String.mk (intChars n)

example : renderNat 0 = "0" := by decide
example : renderNat 120 = "120" := by decide
example : renderInt (-35) = "-35" := by decide

/-! ## Untyped JavaScript values

`JsVal` models the values flowing through the untyped upstream payload.
`vNull` stands for both JS `null` and `undefined` (e.g. out-of-range index
reads).  Arrays are represented by the mutually inductive `JsArr` so that
structural recursion and kernel-computable decidable equality are available
(a nested `List JsVal` would not derive `DecidableEq` on this toolchain). -/

mutual
inductive JsVal where
  | vNull : JsVal
  | vBool : Bool → JsVal
  | vNum : Int → JsVal
  | vStr : String → JsVal
  | vArr : JsArr → JsVal
inductive JsArr where
  | nil : JsArr
  | cons : JsVal → JsArr → JsArr
end

mutual
def JsVal.beq : JsVal → JsVal → Bool
  | .vNull, .vNull => true
  | .vBool a, .vBool b => a == b
  | .vNum a, .vNum b => a == b
  | .vStr a, .vStr b => a == b
  | .vArr a, .vArr b => JsArr.beq a b
  | _, _ => false
def JsArr.beq : JsArr → JsArr → Bool
  | .nil, .nil => true
  | .cons a as_, .cons b bs => JsVal.beq a b && JsArr.beq as_ bs
  | _, _ => false
end

mutual
theorem jsValBeq_iff : ∀ a b : JsVal, JsVal.beq a b = true ↔ a = b
  | .vNull, .vNull => by simp [JsVal.beq]
  | .vBool a, .vBool b => by simp [JsVal.beq]
  | .vNum a, .vNum b => by simp [JsVal.beq]
  | .vStr a, .vStr b => by simp [JsVal.beq]
  | .vArr a, .vArr b => by simp [JsVal.beq, jsArrBeq_iff a b]
  | .vNull, .vBool _ => by simp [JsVal.beq]
  | .vNull, .vNum _ => by simp [JsVal.beq]
  | .vNull, .vStr _ => by simp [JsVal.beq]
  | .vNull, .vArr _ => by simp [JsVal.beq]
  | .vBool _, .vNull => by simp [JsVal.beq]
  | .vBool _, .vNum _ => by simp [JsVal.beq]
  | .vBool _, .vStr _ => by simp [JsVal.beq]
  | .vBool _, .vArr _ => by simp [JsVal.beq]
  | .vNum _, .vNull => by simp [JsVal.beq]
  | .vNum _, .vBool _ => by simp [JsVal.beq]
  | .vNum _, .vStr _ => by simp [JsVal.beq]
  | .vNum _, .vArr _ => by simp [JsVal.beq]
  | .vStr _, .vNull => by simp [JsVal.beq]
  | .vStr _, .vBool _ => by simp [JsVal.beq]
  | .vStr _, .vNum _ => by simp [JsVal.beq]
  | .vStr _, .vArr _ => by simp [JsVal.beq]
  | .vArr _, .vNull => by simp [JsVal.beq]
  | .vArr _, .vBool _ => by simp [JsVal.beq]
  | .vArr _, .vNum _ => by simp [JsVal.beq]
  | .vArr _, .vStr _ => by simp [JsVal.beq]
theorem jsArrBeq_iff : ∀ a b : JsArr, JsArr.beq a b = true ↔ a = b
  | .nil, .nil => by simp [JsArr.beq]
  | .nil, .cons _ _ => by simp [JsArr.beq]
  | .cons _ _, .nil => by simp [JsArr.beq]
  | .cons a as_, .cons b bs => by
    simp [JsArr.beq, jsValBeq_iff a b, jsArrBeq_iff as_ bs, Bool.and_eq_true]
end

instance : DecidableEq JsVal := fun a b =>
  decidable_of_iff (JsVal.beq a b = true) (jsValBeq_iff a b)

instance : DecidableEq JsArr := fun a b =>
  decidable_of_iff (JsArr.beq a b = true) (jsArrBeq_iff a b)

/-- The `List JsVal` view of a `JsArr`. -/
def JsArr.toList : JsArr → List JsVal
  | .nil => []
  | .cons x t => x :: JsArr.toList t

/-- Build a `JsArr` from a `List JsVal` (used to write down concrete payloads). -/
def JsArr.ofList : List JsVal → JsArr
  | [] => .nil
  | x :: t => .cons x (JsArr.ofList t)

/-- Shorthand for a concrete JS array value. -/
def jarr (xs : List JsVal) : JsVal := .vArr (JsArr.ofList xs)

/-- The element list of a JS value when it is an array, `[]` otherwise.
Index reads on the result use `List.getD _ _ .vNull`: a read past the end of
a JS array yields `undefined`, which `vNull` models. -/
def fieldsOf : JsVal → List JsVal
  | .vArr a => a.toList
  | _ => []

/-- Whether a JS value is an array (`Array.isArray`). -/
def isArr : JsVal → Bool
  | .vArr _ => true
  | _ => false

/-- Whether a JS value is a string. -/
def isStr : JsVal → Bool
  | .vStr _ => true
  | _ => false

/-- JS truthiness of a value (`undefined`, `false`, `0` and `""` are falsy). -/
def jsTruthy : JsVal → Bool
  | .vNull => false
  | .vBool b => b
  | .vNum n => decide (n ≠ 0)
  | .vStr s => decide (s ≠ "")
  | .vArr _ => true

/-!
`jsToString` is JS string interpolation of a value, as in a template
literal.  Arrays render as their comma-joined elements with
`null`/`undefined` elements rendered empty.  (Numeric values in this
pipeline are integers; see the header note.) -/
mutual
def jsToString : JsVal → String
  | .vNull => "undefined"
  | .vBool true => "true"
  | .vBool false => "false"
  | .vNum n => renderInt n
  | .vStr s => s
  | .vArr a => jsArrToString a
def jsArrToString : JsArr → String
  | .nil => ""
  | .cons .vNull .nil => ""
  | .cons x .nil => jsToString x
  | .cons .vNull (.cons y t) => "," ++ jsArrToString (.cons y t)
  | .cons x (.cons y t) => jsToString x ++ "," ++ jsArrToString (.cons y t)
end

/-! ## `src/lib/formatHelpers.js` -/

/-- The fractional digits of `fr / 100` (`0 < fr < 100`) as JS renders them:
one digit when `fr` is a multiple of ten, two digits (zero-padded) otherwise. -/
def fracChars (fr : Nat) : List Char :=
  if fr % 10 = 0 then natDigits (fr / 10)
  else if fr < 10 then '0' :: natDigits fr
  else natDigits fr

/-- Character list of the JS rendering of `num2 / 100`
(exact decimal arithmetic; e.g. `valChars (-1) = "-0.01".data`). -/
def valChars (num2 : Int) : List Char :=
  if num2.natAbs % 100 = 0 then
    (if num2 < 0 then ['-'] else []) ++ natDigits (num2.natAbs / 100)
  else
    (if num2 < 0 then ['-'] else []) ++ natDigits (num2.natAbs / 100)
      ++ '.' :: fracChars (num2.natAbs % 100)

/-- JS rendering of `num2 / 100`. -/
def renderVal (num2 : Int) : String := String.mk (valChars num2)

example : renderVal 50 = "0.5" := by decide
example : renderVal (-1) = "-0.01" := by decide
example : renderVal 200 = "2" := by decide
example : renderVal 205 = "2.05" := by decide
example : renderVal 0 = "0" := by decide

/-- The suffix appended after `num1` by `formatOdds`: `"+" ++ val` when
`val > 0`, nothing when `val === -0.01` (i.e. `num2 = -1`), `val` otherwise. -/
def oddsSuffixChars (num2 : Int) : List Char :=
  if 0 < num2 then '+' :: valChars num2
  else if num2 = -1 then []
  else valChars num2

/-- `formatOdds` from `src/lib/formatHelpers.js` on numeric arguments:
`val = num2 / 100`; the formatted string is the interpolation of `num1`
followed by the suffix; a final formatted string equal to `"0-0.01"`
collapses to the empty string. -/
def formatOdds (num1 num2 : Int) : String :=
  let formatted := String.mk (intChars num1 ++ oddsSuffixChars num2)
  if formatted = "0-0.01" then "" else formatted

/-- `formatOdds` as called by the projector, on raw `JsVal` arguments.
A non-numeric `num2` makes `val` NaN, which fails both the `> 0` and the
`=== -0.01` tests and interpolates as `"NaN"`.  (String/boolean coercion of
numeric division is not modeled; the upstream field contract makes the odds
components numeric.) -/
def formatOddsJS (v1 v2 : JsVal) : String :=
  let suffix : List Char :=
    match v2 with
    | .vNum n2 => oddsSuffixChars n2
    | _ => ['N', 'a', 'N']
  let formatted := String.mk ((jsToString v1).data ++ suffix)
  if formatted = "0-0.01" then "" else formatted

/-- `addCacheBusting` from `src/lib/formatHelpers.js`; the impure
`new Date().getTime()` is made an explicit argument `ts`. -/
def addCacheBusting (url : String) (ts : Int) : String :=
  url ++ "&_=" ++ renderInt ts

/-! ## `src/lib/timeHelpers.js` -/

/-- The effect of `timeStr.replace(/(AM|PM)/, ' $1')`: a space is inserted
before the first occurrence of `AM` or `PM`. -/
def insertSpaceBeforePeriod : List Char → List Char
  | [] => []
  | 'A' :: 'M' :: rest => ' ' :: 'A' :: 'M' :: rest
  | 'P' :: 'M' :: rest => ' ' :: 'P' :: 'M' :: rest
  | c :: rest => c :: insertSpaceBeforePeriod rest

/-- JS `trim()`, for the space character (the only whitespace this
pipeline's inputs contain). -/
def trimChars (l : List Char) : List Char :=
  ((l.dropWhile (fun c => c = ' ')).reverse.dropWhile (fun c => c = ' ')).reverse

/-- JS `split(sep)` for a single-character separator: adjacent separators
produce empty fields, as in JS. -/
def splitOnCharAux (sep : Char) : List Char → List Char → List (List Char)
  | acc, [] => [acc.reverse]
  | acc, c :: rest =>
    if c = sep then acc.reverse :: splitOnCharAux sep [] rest
    else splitOnCharAux sep (c :: acc) rest

/-- JS `split(sep)` for a single-character separator. -/
def splitOnChar (sep : Char) (l : List Char) : List (List Char) :=
  splitOnCharAux sep [] l

/-- JS `Number(s)` on a digit string (callers of `subtract90Minutes` satisfy
this precondition; non-digit input would yield NaN, which the source does
not guard against). -/
def parseNat (l : List Char) : Nat :=
  l.foldl (fun a c => 10 * a + (c.toNat - 48)) 0

/-- JS `padStart(2, '0')`. -/
def padStart2 (s : String) : String :=
  String.mk (List.replicate (2 - s.data.length) '0' ++ s.data)

/-- `subtract90Minutes` from `src/lib/timeHelpers.js`, step for step:
normalize spacing, split into time and period, parse hour/minute, convert
to 24-hour minutes, subtract 90, wrap below zero, convert back to a
12-hour string with zero-padded minutes and no space before the period. -/
def subtract90Minutes (timeStr : String) : String :=
  let normalized := trimChars (insertSpaceBeforePeriod timeStr.data)
  let parts := splitOnChar ' ' normalized
  let time := parts.getD 0 []
  let period := parts.getD 1 []
  let hm := splitOnChar ':' time
  let hour0 := parseNat (hm.getD 0 [])
  let minute := parseNat (hm.getD 1 [])
  let hour1 := if period = ['P', 'M'] ∧ hour0 ≠ 12 then hour0 + 12 else hour0
  let hour2 := if period = ['A', 'M'] ∧ hour1 = 12 then 0 else hour1
  let totalRaw : Int := (hour2 : Int) * 60 + (minute : Int) - 90
  let total : Int := if totalRaw < 0 then totalRaw + 1440 else totalRaw
  let t : Nat := total.toNat
  let newHour := t / 60
  let newMinute := t % 60
  let newPeriod := if 12 ≤ newHour then "PM" else "AM"
  let nh := newHour % 12
  let nh := if nh = 0 then 12 else nh
  renderNat nh ++ ":" ++ padStart2 (renderNat newMinute) ++ newPeriod

/-- `subtract90Minutes(...)` as the projector calls it on a raw field value:
any non-string receiver makes `timeStr.replace` throw a `TypeError`. -/
def subtract90MinutesJS : JsVal → Except String String
  | .vStr s => .ok (subtract90Minutes s)
  | _ => .error "TypeError: timeStr.replace is not a function"

example : subtract90Minutes "10:30AM" = "9:00AM" := by decide
example : subtract90Minutes "12:15AM" = "10:45PM" := by decide
example : subtract90Minutes "1:00PM" = "11:30AM" := by decide
example : subtract90Minutes "1:00 PM" = "11:30PM" := by decide

/-! ## `fetchAndProcessData` (oddsService.js lines 22–75) -/

/-- Outcome of the outbound HTTP GET against the relay: either the fetch
itself (or the body read) failed, or a response arrived with success flag
`ok` (`response.ok`) and body text `body`. -/
inductive FetchOutcome where
  | fetchError : String → FetchOutcome
  | response : Bool → String → FetchOutcome

/-- The external effects `fetchAndProcessData` depends on: the request
outcome, and `JSON.parse` as an oracle on the cleaned body text (`none`
models a parse exception). -/
structure FetchEnv where
  outcome : FetchOutcome
  parse : String → Option JsVal

/-- `rawText.replace(/'/g, '"')`: every single quote becomes a double quote. -/
def cleanQuotes (s : String) : String :=
  String.mk (s.data.map fun c => if c = '\'' then '"' else c)

/-- The body of `fetchAndProcessData`'s outer `try`: a thrown error is an
`Except.error`, a returned value is `Except.ok`.  The inner `try/catch`
around `JSON.parse` returns `[]` on parse failure; a parsed array with more
than 3 elements yields its element at index 3, anything else yields `[]`. -/
def fetchAttempt (env : FetchEnv) : Except String JsVal :=
  match env.outcome with
  | .fetchError msg => .error msg
  | .response ok body =>
    if ok = false then .error "Failed to fetch from Google Apps Script proxy."
    else
      match env.parse (cleanQuotes body) with
      | none => .ok (jarr [])
      | some parsed =>
        match parsed with
        | .vArr xs => if 3 < xs.toList.length then .ok (xs.toList.getD 3 .vNull) else .ok (jarr [])
        | _ => .ok (jarr [])

/-- `fetchAndProcessData`: the outer `catch` turns every thrown error into
an empty array, so the function is total and never propagates an exception. -/
def fetchAndProcessData (env : FetchEnv) : JsVal :=
  match fetchAttempt env with
  | .ok v => v
  | .error _ => jarr []

/-! ## `fetchOddsData` — the match normalizer (oddsService.js lines 89–125) -/

/-- A raw match augmented with its league name (`match.league = leagueMeta[1]`).
`fields` is the positional field list of the match array.  (A primitive
match value has no index reads; it is modeled with an empty field list —
in strict mode the property assignment on it would throw, but no claim
distinguishes that case and the dedup invariants are insensitive to it.) -/
structure NormalizedMatch where
  league : JsVal
  fields : List JsVal
deriving DecidableEq

/-- Attach a league name to a raw match value. -/
def mkNm (lg : JsVal) (mv : JsVal) : NormalizedMatch :=
  ⟨lg, fieldsOf mv⟩

/-- The match identity: `match[3]`. -/
def matchId (m : NormalizedMatch) : JsVal := m.fields.getD 3 .vNull

/-- The mutable state threaded through `fetchOddsData`'s loops:
`seen` models the local `uniqueMatchIds` set, `out` the local `finalArr`,
`leagues` the module-global `leagueCollection` set. -/
structure NormState where
  seen : List JsVal
  out : List NormalizedMatch
  leagues : List JsVal

/-- `leagueMeta[1]` — the league name position. -/
def leagueNameOf (leagueMeta : JsVal) : JsVal :=
  (fieldsOf leagueMeta).getD 1 .vNull

/-- One iteration of the inner `matches.forEach(match => ...)` loop:
attach the league, push the match if its id is unseen, record the league. -/
def processMatch (lg : JsVal) (st : NormState) (mv : JsVal) : NormState :=
  let m := mkNm lg mv
  let mid := matchId m
  let st1 := if mid ∈ st.seen then st else ⟨mid :: st.seen, st.out ++ [m], st.leagues⟩
  if lg ∈ st1.leagues then st1 else ⟨st1.seen, st1.out, lg :: st1.leagues⟩

/-- One iteration of the outer `result.forEach(([leagueMeta, matches]) => ...)`
loop: skip the pair when its `matches` position is not an array. -/
def processPair (st : NormState) (pair : JsVal) : NormState :=
  let leagueMeta := (fieldsOf pair).getD 0 .vNull
  match (fieldsOf pair).getD 1 .vNull with
  | .vArr ms => ms.toList.foldl (processMatch (leagueNameOf leagueMeta)) st
  | _ => st

/-- `fetchOddsData` run on an already-fetched pair list, with the inherited
`leagueCollection` contents `lc0` made explicit. -/
def fetchOddsDataRun (pairs : List JsVal) (lc0 : List JsVal) : NormState :=
  pairs.foldl processPair ⟨[], [], lc0⟩

/-- The `finalArr` value `fetchOddsData` resolves to. -/
def fetchOddsData (pairs : List JsVal) (lc0 : List JsVal) : List NormalizedMatch :=
  (fetchOddsDataRun pairs lc0).out

/-- The full (league, match) traversal order, before deduplication:
every match of every pair whose `matches` position is an array. -/
def pairMatches (pair : JsVal) : List NormalizedMatch :=
  match (fieldsOf pair).getD 1 .vNull with
  | .vArr ms => ms.toList.map (mkNm (leagueNameOf ((fieldsOf pair).getD 0 .vNull)))
  | _ => []

/-- All matches in traversal order across the pair list. -/
def allMatchesOf (pairs : List JsVal) : List NormalizedMatch :=
  (pairs.map pairMatches).flatten

/-- Modelled from the spec's words (§4.5 invariant): keep the first
occurrence of each identity, dropping later duplicates; `seen` holds the
identities already emitted. -/
def firstSeenDedup (seen : List JsVal) : List NormalizedMatch → List NormalizedMatch
  | [] => []
  | m :: rest =>
    if matchId m ∈ seen then firstSeenDedup seen rest
    else m :: firstSeenDedup (matchId m :: seen) rest

/-! ## `getFormattedMatchesAsJson` — the response projector (lines 136–180) -/

/-- The public output record. -/
structure FormattedMatch where
  league : JsVal
  time : String
  homeTeam : JsVal
  awayTeam : JsVal
  isHomeTeamHighlighted : Bool
  isAwayTeamHighlighted : Bool
  odds : String
  finalGoalPoints : String
deriving DecidableEq

/-- The output record built for one normalized match once its adjusted time
string `t` is available: the body of the `data.forEach(eachMatch => ...)`
loop apart from the `subtract90Minutes` call. -/
def projectFields (m : NormalizedMatch) (t : String) : FormattedMatch :=
  let g := fun (i : Nat) => m.fields.getD i JsVal.vNull
  let formatVal : String :=
    match g 51 with
    | .vNum n => if 0 ≤ n then "+" ++ renderVal n else renderVal n
    | _ => "NaN"
  let gp := jsToString (g 55) ++ formatVal
  let highlighted := if g 34 = JsVal.vNum 1 then g 16 else g 20
  { league := if jsTruthy m.league then m.league else .vStr "Unknown League"
    time := t
    homeTeam := g 16
    awayTeam := g 20
    isHomeTeamHighlighted := decide (highlighted = g 16)
    isAwayTeamHighlighted := decide (highlighted = g 20)
    odds := formatOddsJS (g 52) (g 50)
    finalGoalPoints := if gp = "0-0.01" then "" else gp }

/-- Project one normalized match into the output shape.  The only step that
can throw is `subtract90Minutes(eachMatch[8])` on a non-string field. -/
def projectMatch (m : NormalizedMatch) : Except String FormattedMatch :=
  match subtract90MinutesJS (m.fields.getD 8 JsVal.vNull) with
  | .error e => .error e
  | .ok t => .ok (projectFields m t)

/-- The projector loop: stops at the first thrown error (the exception
escapes the `forEach`), otherwise collects one output record per input. -/
def projectAll : List NormalizedMatch → Except String (List FormattedMatch)
  | [] => .ok []
  | m :: rest =>
    match projectMatch m with
    | .error e => .error e
    | .ok f =>
      match projectAll rest with
      | .error e => .error e
      | .ok fs => .ok (f :: fs)

/-- The projector including the `data.length === 0` early return. -/
def formatMatches (data : List NormalizedMatch) : Except String (List FormattedMatch) :=
  if data.length = 0 then .ok [] else projectAll data

/-- Normalize-and-project on a pair list; the surrounding `catch` in
`getFormattedMatchesAsJson` turns a projector exception into `[]`. -/
def matchesJsonOfPairs (pairs : List JsVal) (lc0 : List JsVal) : List FormattedMatch :=
  match formatMatches (fetchOddsData pairs lc0) with
  | .ok out => out
  | .error _ => []

/-- `getFormattedMatchesAsJson`: fetch, normalize, project; a non-array
fetch result makes `result.forEach` throw, which the `catch` maps to `[]`. -/
def getFormattedMatchesAsJson (env : FetchEnv) (lc0 : List JsVal) : List FormattedMatch :=
  match fetchAndProcessData env with
  | .vArr pairs => matchesJsonOfPairs pairs.toList lc0
  | _ => []

/-- The outbound request URL (oddsService.js line 25); `encode` is the
external `encodeURIComponent`, `ts` the cache-busting timestamp. -/
def fullUrlOf (encode : String → String) (apiUrlBase proxyUrl : String) (lid ts : Int) : String :=
  proxyUrl ++ encode (addCacheBusting (apiUrlBase ++ renderInt lid) ts)

/-- One worker invocation, made explicit in all its impure inputs: the
observable outputs are the outbound request URL and the response body. -/
def runWorker (encode : String → String) (apiUrlBase proxyUrl : String) (lid ts : Int)
    (env : FetchEnv) (lc0 : List JsVal) : String × List FormattedMatch :=
  (fullUrlOf encode apiUrlBase proxyUrl lid ts, getFormattedMatchesAsJson env lc0)

/-! ## Lemmas about decimal digit rendering -/

theorem natDigitsAux_congr : ∀ (n f g : Nat), n < f → n < g → natDigitsAux f n = natDigitsAux g n := by
  intro n
  induction n using Nat.strong_induction_on with
  | _ n ih =>
    intro f g hf hg
    match f, g with
    | f + 1, g + 1 =>
      simp only [natDigitsAux]
      by_cases h : n < 10
      · simp [h]
      · have hn : n / 10 < n := Nat.div_lt_self (by omega) (by omega)
        simp only [h, if_false]
        rw [ih (n / 10) hn (f) (g) (by omega) (by omega)]

theorem natDigits_eq_low {n : Nat} (h : n < 10) : natDigits n = [digitChar n] := by
  simp [natDigits, natDigitsAux, h]

theorem natDigits_eq_high {n : Nat} (h : 10 ≤ n) :
    natDigits n = natDigits (n / 10) ++ [digitChar (n % 10)] := by
  have h1 : natDigits n = natDigitsAux (n + 1) n := rfl
  rw [h1]
  simp only [natDigitsAux]
  rw [if_neg (by omega)]
  have hn : n / 10 < n := Nat.div_lt_self (by omega) (by omega)
  rw [natDigitsAux_congr (n / 10) n (n / 10 + 1) hn (by omega)]
  rfl

theorem natDigits_ne_nil (n : Nat) : natDigits n ≠ [] := by
  by_cases h : n < 10
  · rw [natDigits_eq_low h]; simp
  · rw [natDigits_eq_high (by omega)]; simp

theorem natDigits_exists_cons (n : Nat) : ∃ c rest, natDigits n = c :: rest := by
  cases hnd : natDigits n with
  | nil => exact absurd hnd (natDigits_ne_nil n)
  | cons c rest => exact ⟨c, rest, rfl⟩

theorem natDigits_mem_digit : ∀ n c, c ∈ natDigits n → ∃ d, d < 10 ∧ c = digitChar d := by
  intro n
  induction n using Nat.strong_induction_on with
  | _ n ih =>
    intro c hc
    by_cases h : n < 10
    · rw [natDigits_eq_low h] at hc
      simp only [List.mem_singleton] at hc
      exact ⟨n, h, hc⟩
    · rw [natDigits_eq_high (by omega)] at hc
      rw [List.mem_append] at hc
      rcases hc with hc | hc
      · exact ih (n / 10) (Nat.div_lt_self (by omega) (by omega)) c hc
      · simp only [List.mem_singleton] at hc
        exact ⟨n % 10, Nat.mod_lt _ (by omega), hc⟩

theorem digitChar_not_special {d : Nat} (hd : d < 10) :
    digitChar d ≠ '-' ∧ digitChar d ≠ '.' ∧ digitChar d ≠ '+' := by
  interval_cases d <;> refine ⟨by decide, by decide, by decide⟩

theorem digitChar_eq_zero_iff {d : Nat} (hd : d < 10) : digitChar d = '0' ↔ d = 0 := by
  interval_cases d <;> simp <;> decide

theorem digitChar_eq_one_iff {d : Nat} (hd : d < 10) : digitChar d = '1' ↔ d = 1 := by
  interval_cases d <;> simp <;> decide

theorem natDigits_zero_head : ∀ n t, natDigits n = '0' :: t → n = 0 ∧ t = [] := by
  intro n
  induction n using Nat.strong_induction_on with
  | _ n ih =>
    intro t h
    by_cases hlt : n < 10
    · rw [natDigits_eq_low hlt] at h
      obtain ⟨h1, h2⟩ := List.cons.inj h
      exact ⟨(digitChar_eq_zero_iff hlt).1 h1, h2.symm⟩
    · exfalso
      rw [natDigits_eq_high (by omega)] at h
      obtain ⟨c, rest, hcr⟩ := natDigits_exists_cons (n / 10)
      rw [hcr] at h
      simp only [List.cons_append] at h
      obtain ⟨hc, _⟩ := List.cons.inj h
      have hdiv : n / 10 < n := Nat.div_lt_self (by omega) (by omega)
      have h0 := ih (n / 10) hdiv rest (hc ▸ hcr)
      omega

theorem natDigits_eq_one_digit : ∀ n, natDigits n = ['1'] → n = 1 := by
  intro n h
  by_cases hlt : n < 10
  · rw [natDigits_eq_low hlt] at h
    obtain ⟨h1, _⟩ := List.cons.inj h
    exact (digitChar_eq_one_iff hlt).1 h1
  · exfalso
    rw [natDigits_eq_high (by omega)] at h
    have hl := congrArg List.length h
    simp only [List.length_append, List.length_singleton, List.length_cons,
      List.length_nil] at hl
    have := natDigits_ne_nil (n / 10)
    have : (natDigits (n / 10)).length ≠ 0 := fun hz => this (List.length_eq_zero.mp hz)
    omega

/-! ## Lemmas about `formatOdds` -/

theorem intChars_ne_nil (n : Int) : intChars n ≠ [] := by
  unfold intChars
  by_cases h : n < 0
  · rw [if_pos h]; simp
  · rw [if_neg h]; exact natDigits_ne_nil _

theorem intChars_append_eq_target (num1 : Int) (s : List Char)
    (h : intChars num1 ++ s = ['0', '-', '0', '.', '0', '1']) :
    num1 = 0 ∧ s = ['-', '0', '.', '0', '1'] := by
  unfold intChars at h
  by_cases hneg : num1 < 0
  · rw [if_pos hneg] at h
    simp only [List.cons_append] at h
    exact absurd (List.cons.inj h).1 (by decide)
  · rw [if_neg hneg] at h
    obtain ⟨c, rest, hcr⟩ := natDigits_exists_cons num1.toNat
    rw [hcr] at h
    simp only [List.cons_append] at h
    obtain ⟨hc, ht⟩ := List.cons.inj h
    obtain ⟨hzero, hrest⟩ := natDigits_zero_head num1.toNat rest (hc ▸ hcr)
    subst hrest
    simp only [List.nil_append] at ht
    exact ⟨by omega, ht⟩

theorem valChars_eq_neg001 (n2 : Int) (h : valChars n2 = ['-', '0', '.', '0', '1']) :
    n2 = -1 := by
  unfold valChars at h
  by_cases hdiv : n2.natAbs % 100 = 0
  · exfalso
    rw [if_pos hdiv] at h
    have hdot : '.' ∈ (if n2 < 0 then ['-'] else []) ++ natDigits (n2.natAbs / 100) := by
      rw [h]; decide
    rw [List.mem_append] at hdot
    rcases hdot with hdot | hdot
    · by_cases hneg : n2 < 0
      · rw [if_pos hneg] at hdot; simp at hdot
      · rw [if_neg hneg] at hdot; simp at hdot
    · obtain ⟨d, hd, hcd⟩ := natDigits_mem_digit _ _ hdot
      exact (digitChar_not_special hd).2.1 hcd.symm
  · rw [if_neg hdiv] at h
    by_cases hneg : n2 < 0
    · rw [if_pos hneg] at h
      simp only [List.cons_append, List.singleton_append, List.nil_append] at h
      obtain ⟨-, ht⟩ := List.cons.inj h
      obtain ⟨c, rest, hcr⟩ := natDigits_exists_cons (n2.natAbs / 100)
      rw [hcr] at ht
      simp only [List.nil_append, List.cons_append] at ht
      obtain ⟨hc, ht2⟩ := List.cons.inj ht
      obtain ⟨hip, hrest⟩ := natDigits_zero_head _ rest (hc ▸ hcr)
      subst hrest
      simp only [List.nil_append] at ht2
      obtain ⟨-, hfr⟩ := List.cons.inj ht2
      have hlt : n2.natAbs % 100 < 100 := Nat.mod_lt _ (by omega)
      have hfr1 : n2.natAbs % 100 = 1 := by
        unfold fracChars at hfr
        by_cases h10 : n2.natAbs % 100 % 10 = 0
        · exfalso
          rw [if_pos h10] at hfr
          obtain ⟨-, htail⟩ := natDigits_zero_head _ _ hfr
          exact absurd htail (by decide)
        · rw [if_neg h10] at hfr
          by_cases hsm : n2.natAbs % 100 < 10
          · rw [if_pos hsm] at hfr
            obtain ⟨-, h1⟩ := List.cons.inj hfr
            exact natDigits_eq_one_digit _ h1
          · exfalso
            rw [if_neg hsm] at hfr
            obtain ⟨-, htail⟩ := natDigits_zero_head _ _ hfr
            exact absurd htail (by decide)
      omega
    · exfalso
      rw [if_neg hneg] at h
      simp only [List.nil_append] at h
      obtain ⟨c, rest, hcr⟩ := natDigits_exists_cons (n2.natAbs / 100)
      rw [hcr] at h
      simp only [List.cons_append] at h
      obtain ⟨hc, -⟩ := List.cons.inj h
      have hcmem : c ∈ natDigits (n2.natAbs / 100) := by rw [hcr]; simp
      obtain ⟨d, hd, hcd⟩ := natDigits_mem_digit _ _ hcmem
      exact (digitChar_not_special hd).1 (hcd ▸ hc)

/-- C9 (and the inner collapse analysis of C1): the literal string `"0-0.01"`
can never arise from `intChars num1 ++ oddsSuffixChars num2`. -/
theorem formatOdds_collapse_unreachable (num1 num2 : Int) :
    intChars num1 ++ oddsSuffixChars num2 ≠ ['0', '-', '0', '.', '0', '1'] := by
  intro hdata
  obtain ⟨h1, h2⟩ := intChars_append_eq_target _ _ hdata
  unfold oddsSuffixChars at h2
  by_cases hp : 0 < num2
  · rw [if_pos hp] at h2
    exact absurd (List.cons.inj h2).1 (by decide)
  · rw [if_neg hp] at h2
    by_cases hm : num2 = -1
    · rw [if_pos hm] at h2
      exact absurd h2 (by decide)
    · rw [if_neg hm] at h2
      exact hm (valChars_eq_neg001 _ h2)

/-! ## Lemmas about the normalizer -/

theorem processMatch_seen (lg : JsVal) (st : NormState) (mv : JsVal) :
    (processMatch lg st mv).seen =
      if matchId (mkNm lg mv) ∈ st.seen then st.seen
      else matchId (mkNm lg mv) :: st.seen := by
  unfold processMatch
  by_cases h1 : matchId (mkNm lg mv) ∈ st.seen <;> simp only [h1, if_pos, if_neg, if_true, if_false, reduceIte] <;> split <;> rfl

theorem processMatch_out (lg : JsVal) (st : NormState) (mv : JsVal) :
    (processMatch lg st mv).out =
      if matchId (mkNm lg mv) ∈ st.seen then st.out
      else st.out ++ [mkNm lg mv] := by
  unfold processMatch
  by_cases h1 : matchId (mkNm lg mv) ∈ st.seen <;> simp only [h1, if_true, if_false, reduceIte] <;> split <;> rfl

theorem foldl_processMatch (lg : JsVal) :
    ∀ (ms : List JsVal) (st : NormState),
      (ms.foldl (processMatch lg) st).out
          = st.out ++ firstSeenDedup st.seen (ms.map (mkNm lg)) ∧
        ∀ x, x ∈ (ms.foldl (processMatch lg) st).seen ↔
          x ∈ st.seen ∨ x ∈ (ms.map (mkNm lg)).map matchId := by
  intro ms
  induction ms with
  | nil => intro st; simp [firstSeenDedup]
  | cons mv rest ih =>
    intro st
    simp only [List.foldl_cons, List.map_cons]
    by_cases hseen : matchId (mkNm lg mv) ∈ st.seen
    · have hs : (processMatch lg st mv).seen = st.seen := by
        rw [processMatch_seen, if_pos hseen]
      have ho : (processMatch lg st mv).out = st.out := by
        rw [processMatch_out, if_pos hseen]
      obtain ⟨iho, ihs⟩ := ih (processMatch lg st mv)
      constructor
      · rw [iho, hs, ho]
        simp only [firstSeenDedup]
        rw [if_pos hseen]
      · intro x
        rw [ihs x, hs]
        simp only [List.map_cons, List.mem_cons]
        constructor
        · rintro (hx | hx)
          · exact Or.inl hx
          · exact Or.inr (Or.inr hx)
        · rintro (hx | hx | hx)
          · exact Or.inl hx
          · subst hx; exact Or.inl hseen
          · exact Or.inr hx
    · have hs : (processMatch lg st mv).seen = matchId (mkNm lg mv) :: st.seen := by
        rw [processMatch_seen, if_neg hseen]
      have ho : (processMatch lg st mv).out = st.out ++ [mkNm lg mv] := by
        rw [processMatch_out, if_neg hseen]
      obtain ⟨iho, ihs⟩ := ih (processMatch lg st mv)
      constructor
      · rw [iho, hs, ho]
        simp only [firstSeenDedup]
        rw [if_neg hseen, List.append_assoc]
        rfl
      · intro x
        rw [ihs x, hs]
        simp only [List.map_cons, List.mem_cons]
        tauto

theorem firstSeenDedup_congr : ∀ (l : List NormalizedMatch) (s1 s2 : List JsVal),
    (∀ x, x ∈ s1 ↔ x ∈ s2) → firstSeenDedup s1 l = firstSeenDedup s2 l := by
  intro l
  induction l with
  | nil => intro s1 s2 _; rfl
  | cons m rest ih =>
    intro s1 s2 hs
    simp only [firstSeenDedup]
    by_cases h1 : matchId m ∈ s1
    · rw [if_pos h1, if_pos ((hs _).1 h1)]
      exact ih s1 s2 hs
    · rw [if_neg h1, if_neg (fun h => h1 ((hs _).2 h))]
      rw [ih (matchId m :: s1) (matchId m :: s2)
        (fun x => by simp only [List.mem_cons]; rw [hs x])]

theorem firstSeenDedup_append : ∀ (l1 l2 : List NormalizedMatch) (s s2 : List JsVal),
    (∀ x, x ∈ s2 ↔ x ∈ s ∨ x ∈ l1.map matchId) →
    firstSeenDedup s (l1 ++ l2) = firstSeenDedup s l1 ++ firstSeenDedup s2 l2 := by
  intro l1
  induction l1 with
  | nil =>
    intro l2 s s2 hs
    simp only [List.nil_append, firstSeenDedup]
    exact firstSeenDedup_congr l2 s s2 (fun x => by rw [hs x]; simp)
  | cons m rest ih =>
    intro l2 s s2 hs
    simp only [List.cons_append, firstSeenDedup]
    by_cases h1 : matchId m ∈ s
    · rw [if_pos h1, if_pos h1]
      refine ih l2 s s2 (fun x => ?_)
      rw [hs x]
      simp only [List.map_cons, List.mem_cons]
      constructor
      · rintro (hx | hx | hx)
        · exact Or.inl hx
        · subst hx; exact Or.inl h1
        · exact Or.inr hx
      · rintro (hx | hx)
        · exact Or.inl hx
        · exact Or.inr (Or.inr hx)
    · rw [if_neg h1, if_neg h1]
      simp only [List.append_eq]
      rw [ih l2 (matchId m :: s) s2 (fun x => by
        rw [hs x]; simp only [List.map_cons, List.mem_cons]; tauto)]
      rfl

theorem processPair_of_arr (st : NormState) (pair : JsVal) (a : JsArr)
    (h : (fieldsOf pair).getD 1 JsVal.vNull = JsVal.vArr a) :
    processPair st pair
      = a.toList.foldl (processMatch (leagueNameOf ((fieldsOf pair).getD 0 JsVal.vNull))) st := by
  unfold processPair
  rw [h]

theorem processPair_of_not_arr (st : NormState) (pair : JsVal)
    (h : isArr ((fieldsOf pair).getD 1 JsVal.vNull) = false) :
    processPair st pair = st := by
  unfold processPair
  cases hv : (fieldsOf pair).getD 1 JsVal.vNull <;> try rfl
  rw [hv] at h
  exact absurd h (by simp [isArr])

theorem pairMatches_of_arr (pair : JsVal) (a : JsArr)
    (h : (fieldsOf pair).getD 1 JsVal.vNull = JsVal.vArr a) :
    pairMatches pair
      = a.toList.map (mkNm (leagueNameOf ((fieldsOf pair).getD 0 JsVal.vNull))) := by
  unfold pairMatches
  rw [h]

theorem pairMatches_of_not_arr (pair : JsVal)
    (h : isArr ((fieldsOf pair).getD 1 JsVal.vNull) = false) :
    pairMatches pair = [] := by
  unfold pairMatches
  cases hv : (fieldsOf pair).getD 1 JsVal.vNull <;> try rfl
  rw [hv] at h
  exact absurd h (by simp [isArr])

theorem foldl_processPair : ∀ (pairs : List JsVal) (st : NormState),
    (pairs.foldl processPair st).out
        = st.out ++ firstSeenDedup st.seen (allMatchesOf pairs) ∧
      ∀ x, x ∈ (pairs.foldl processPair st).seen ↔
        x ∈ st.seen ∨ x ∈ (allMatchesOf pairs).map matchId := by
  intro pairs
  induction pairs with
  | nil => intro st; simp [allMatchesOf, firstSeenDedup]
  | cons pair rest ih =>
    intro st
    have hall : allMatchesOf (pair :: rest) = pairMatches pair ++ allMatchesOf rest := by
      simp [allMatchesOf]
    simp only [List.foldl_cons]
    rw [hall]
    cases harr : isArr ((fieldsOf pair).getD 1 JsVal.vNull) with
    | false =>
      rw [processPair_of_not_arr st pair harr, pairMatches_of_not_arr pair harr]
      obtain ⟨iho, ihs⟩ := ih st
      exact ⟨by rw [iho]; simp, fun x => by rw [ihs x]; simp⟩
    | true =>
      obtain ⟨a, ha⟩ : ∃ a, (fieldsOf pair).getD 1 JsVal.vNull = JsVal.vArr a := by
        cases hv : (fieldsOf pair).getD 1 JsVal.vNull <;> rw [hv] at harr <;>
          simp [isArr] at harr
        exact ⟨_, rfl⟩
      rw [processPair_of_arr st pair a ha, pairMatches_of_arr pair a ha]
      obtain ⟨mo, ms⟩ := foldl_processMatch (leagueNameOf ((fieldsOf pair).getD 0 JsVal.vNull))
        a.toList st
      obtain ⟨iho, ihs⟩ := ih
        (a.toList.foldl (processMatch (leagueNameOf ((fieldsOf pair).getD 0 JsVal.vNull))) st)
      constructor
      · rw [iho, mo]
        rw [firstSeenDedup_append _ _ st.seen _ ms, List.append_assoc]
      · intro x
        rw [ihs x, ms x]
        simp only [List.map_append, List.mem_append]
        tauto

theorem firstSeenDedup_nodup : ∀ (l : List NormalizedMatch) (s : List JsVal),
    ((firstSeenDedup s l).map matchId).Nodup ∧
      ∀ x ∈ (firstSeenDedup s l).map matchId, x ∉ s := by
  intro l
  induction l with
  | nil => intro s; simp [firstSeenDedup]
  | cons m rest ih =>
    intro s
    simp only [firstSeenDedup]
    by_cases h1 : matchId m ∈ s
    · rw [if_pos h1]; exact ih s
    · rw [if_neg h1]
      obtain ⟨ihn, ihs⟩ := ih (matchId m :: s)
      simp only [List.map_cons, List.nodup_cons]
      refine ⟨⟨fun hmem => ?_, ihn⟩, ?_⟩
      · exact (ihs _ hmem) (List.mem_cons_self _ _)
      · intro x hx
        rcases List.mem_cons.mp hx with hx | hx
        · subst hx; exact h1
        · exact fun hxs => (ihs x hx) (List.mem_cons_of_mem _ hxs)

theorem firstSeenDedup_subset : ∀ (l : List NormalizedMatch) (s : List JsVal) (m : NormalizedMatch),
    m ∈ firstSeenDedup s l → m ∈ l := by
  intro l
  induction l with
  | nil => intro s m h; simp [firstSeenDedup] at h
  | cons x rest ih =>
    intro s m h
    simp only [firstSeenDedup] at h
    by_cases h1 : matchId x ∈ s
    · rw [if_pos h1] at h
      exact List.mem_cons_of_mem _ (ih s m h)
    · rw [if_neg h1] at h
      rcases List.mem_cons.mp h with h | h
      · subst h; exact List.mem_cons_self _ _
      · exact List.mem_cons_of_mem _ (ih _ m h)

theorem firstSeenDedup_length : ∀ (l : List NormalizedMatch) (s : List JsVal),
    (firstSeenDedup s l).length = ((l.map matchId).toFinset \ s.toFinset).card := by
  intro l
  induction l with
  | nil => intro s; simp [firstSeenDedup]
  | cons m rest ih =>
    intro s
    simp only [firstSeenDedup, List.map_cons, List.toFinset_cons]
    by_cases h1 : matchId m ∈ s
    · rw [if_pos h1, ih s]
      rw [Finset.insert_sdiff_of_mem _ (List.mem_toFinset.mpr h1)]
    · rw [if_neg h1]
      simp only [List.length_cons, ih (matchId m :: s), List.toFinset_cons]
      have hset : insert (matchId m) (rest.map matchId).toFinset \ s.toFinset
          = insert (matchId m)
              ((rest.map matchId).toFinset \ insert (matchId m) s.toFinset) := by
        ext x
        simp only [Finset.mem_sdiff, Finset.mem_insert]
        constructor
        · rintro ⟨hx | hx, hxs⟩
          · exact Or.inl hx
          · by_cases hxm : x = matchId m
            · exact Or.inl hxm
            · exact Or.inr ⟨hx, by tauto⟩
        · rintro (hx | ⟨hx, hxns⟩)
          · subst hx
            exact ⟨Or.inl rfl, fun hs => h1 (List.mem_toFinset.mp hs)⟩
          · exact ⟨Or.inr hx, fun hs => hxns (Or.inr hs)⟩
      rw [hset, Finset.card_insert_of_not_mem
        (fun hmem => (Finset.mem_sdiff.mp hmem).2 (Finset.mem_insert_self _ _))]

/-! ## Lemmas about the projector and the fetch layer -/

theorem isStr_exists {v : JsVal} (h : isStr v = true) : ∃ s, v = JsVal.vStr s := by
  cases v <;> first
    | exact ⟨_, rfl⟩
    | exact absurd h (by simp [isStr])

theorem projectMatch_ok_of_str {m : NormalizedMatch}
    (h : isStr (m.fields.getD 8 JsVal.vNull) = true) : ∃ f, projectMatch m = .ok f := by
  obtain ⟨s, hs⟩ := isStr_exists h
  refine ⟨projectFields m (subtract90Minutes s), ?_⟩
  unfold projectMatch
  rw [hs]
  rfl

theorem projectAll_length_of_ok : ∀ (data : List NormalizedMatch),
    (∀ m ∈ data, isStr (m.fields.getD 8 JsVal.vNull) = true) →
    ∃ out, projectAll data = .ok out ∧ out.length = data.length := by
  intro data
  induction data with
  | nil => intro _; exact ⟨[], rfl, rfl⟩
  | cons m rest ih =>
    intro h
    obtain ⟨f, hf⟩ := projectMatch_ok_of_str (h m (List.mem_cons_self _ _))
    obtain ⟨out, hout, hlen⟩ := ih (fun x hx => h x (List.mem_cons_of_mem _ hx))
    refine ⟨f :: out, ?_, by simp [hlen]⟩
    unfold projectAll
    rw [hf, hout]

theorem fetchOddsData_eq_dedup (pairs lc0 : List JsVal) :
    fetchOddsData pairs lc0 = firstSeenDedup [] (allMatchesOf pairs) := by
  unfold fetchOddsData fetchOddsDataRun
  obtain ⟨ho, -⟩ := foldl_processPair pairs ⟨[], [], lc0⟩
  rw [ho]
  rfl

theorem fetchAttempt_response_true (env : FetchEnv) (body : String)
    (h : env.outcome = .response true body) :
    fetchAttempt env =
      (match env.parse (cleanQuotes body) with
        | none => .ok (jarr [])
        | some parsed =>
          match parsed with
          | .vArr xs =>
            if 3 < xs.toList.length then .ok (xs.toList.getD 3 .vNull) else .ok (jarr [])
          | _ => .ok (jarr [])) := by
  unfold fetchAttempt
  rw [h]
  rfl

theorem fetchAttempt_parsed_arr (env : FetchEnv) (body : String) (xs : JsArr)
    (ho : env.outcome = .response true body)
    (hp : env.parse (cleanQuotes body) = some (.vArr xs)) :
    fetchAttempt env =
      if 3 < xs.toList.length then .ok (xs.toList.getD 3 .vNull) else .ok (jarr []) := by
  rw [fetchAttempt_response_true env body ho, hp]

theorem matchesJsonOfPairs_lc_indep (pairs lc1 lc2 : List JsVal) :
    matchesJsonOfPairs pairs lc1 = matchesJsonOfPairs pairs lc2 := by
  unfold matchesJsonOfPairs
  rw [fetchOddsData_eq_dedup pairs lc1, fetchOddsData_eq_dedup pairs lc2]

/-! ## The claims -/

/-- C1 counterexample: the spec's vector table does not match the code.
`formatOdds(2, 0)` interpolates `val = 0` in the final else-branch, giving
`"20"`, not `"2"`; and `formatOdds(0, -1)` gives `"0"` (the `-0.01`
suppression leaves `"0"`, which is not the literal `"0-0.01"`), not `""`. -/
theorem formatOdds_spec_vectors_refuted :
    ¬ (formatOdds 1 50 = "1+0.5" ∧ formatOdds 2 0 = "2" ∧ formatOdds 0 (-1) = "") := by
  decide

/-- C1 (amended): the vectors the code actually satisfies:
`formatOdds(1, 50) = "1+0.5"`, `formatOdds(2, 0) = "20"`,
`formatOdds(0, -1) = "0"`. -/
theorem formatOdds_test_vectors :
    formatOdds 1 50 = "1+0.5" ∧ formatOdds 2 0 = "20" ∧ formatOdds 0 (-1) = "0" := by
  decide

/-- C2 counterexample: a parsed payload that is an array with exactly 4
elements does **not** yield the empty sequence — the code tests
`parsed.length > 3`, so 4 elements suffice and element 3 is returned. -/
theorem fetch_four_element_payload_not_empty :
    fetchAndProcessData
        ⟨.response true "b", fun _ => some (jarr [.vNull, .vNull, .vNull, .vNum 7])⟩
      = JsVal.vNum 7 ∧ JsVal.vNum 7 ≠ jarr [] := by
  refine ⟨by decide, by decide⟩

/-- C2 (amended): for a successfully fetched body whose cleaned text parses
to an array `xs`, the fetcher returns the empty array when `xs` has 3 or
fewer elements, and the element at index 3 when it has more than 3. -/
theorem fetchAndProcessData_index3 (env : FetchEnv) (body : String) (xs : JsArr)
    (ho : env.outcome = .response true body)
    (hp : env.parse (cleanQuotes body) = some (.vArr xs)) :
    (xs.toList.length ≤ 3 → fetchAndProcessData env = jarr []) ∧
      (3 < xs.toList.length → fetchAndProcessData env = xs.toList.getD 3 .vNull) := by
  constructor <;> intro hlen <;> unfold fetchAndProcessData
  · rw [fetchAttempt_parsed_arr env body xs ho hp, if_neg (by omega)]
  · rw [fetchAttempt_parsed_arr env body xs ho hp, if_pos hlen]

/-- Witness for C2 (amended) at a concrete 5-element payload. -/
theorem fetchAndProcessData_index3_witness :
    fetchAndProcessData
        ⟨.response true "x",
          fun _ => some (.vArr (JsArr.ofList [.vNull, .vNull, .vNull, .vNum 9, .vNull]))⟩
      = JsVal.vNum 9 :=
  ((fetchAndProcessData_index3
      ⟨.response true "x",
        fun _ => some (.vArr (JsArr.ofList [.vNull, .vNull, .vNull, .vNum 9, .vNull]))⟩
      "x" (JsArr.ofList [.vNull, .vNull, .vNull, .vNum 9, .vNull]) rfl rfl).2
    (by decide)).trans (by decide)

/-- C3: every failure mode of the fetcher — network/fetch error, non-success
HTTP status, unparseable JSON, or a parsed value that is not an array —
yields the empty array.  (The outer `catch` makes `fetchAndProcessData` a
total function: no error reaches the caller, by construction of the
embedding.) -/
theorem fetchAndProcessData_failure_empty (env : FetchEnv)
    (h : (∃ msg, env.outcome = .fetchError msg) ∨
      (∃ body, env.outcome = .response false body) ∨
      (∃ body, env.outcome = .response true body ∧ env.parse (cleanQuotes body) = none) ∨
      (∃ body v, env.outcome = .response true body ∧ env.parse (cleanQuotes body) = some v ∧
        isArr v = false)) :
    fetchAndProcessData env = jarr [] := by
  rcases h with ⟨msg, ho⟩ | ⟨body, ho⟩ | ⟨body, ho, hp⟩ | ⟨body, v, ho, hp, hv⟩
  · unfold fetchAndProcessData fetchAttempt
    rw [ho]
  · unfold fetchAndProcessData fetchAttempt
    rw [ho]
    rfl
  · have ha := fetchAttempt_response_true env body ho
    rw [hp] at ha
    unfold fetchAndProcessData
    rw [ha]
  · have ha := fetchAttempt_response_true env body ho
    rw [hp] at ha
    unfold fetchAndProcessData
    cases v with
    | vArr a => exact absurd hv (by simp [isArr])
    | vNull => rw [ha]
    | vBool b => rw [ha]
    | vNum n => rw [ha]
    | vStr s => rw [ha]

/-- Witness for C3 at a concrete network failure. -/
theorem fetchAndProcessData_failure_empty_witness :
    fetchAndProcessData ⟨.fetchError "network down", fun _ => none⟩ = jarr [] :=
  fetchAndProcessData_failure_empty ⟨.fetchError "network down", fun _ => none⟩
    (Or.inl ⟨"network down", rfl⟩)

/-- C4: the normalizer's output never contains two matches with the same
identifier (`match[3]`), and it equals the first-occurrence deduplication
of the full (league, match) traversal — so when several matches share an
identifier exactly the first-encountered one survives, in traversal order.
This holds for every raw pair list and every inherited league registry. -/
theorem fetchOddsData_nodup_first_occurrence (pairs lc0 : List JsVal) :
    ((fetchOddsData pairs lc0).map matchId).Nodup ∧
      fetchOddsData pairs lc0 = firstSeenDedup [] (allMatchesOf pairs) := by
  refine ⟨?_, fetchOddsData_eq_dedup pairs lc0⟩
  rw [fetchOddsData_eq_dedup pairs lc0]
  exact (firstSeenDedup_nodup (allMatchesOf pairs) []).1

/-- C5: the projector's highlight booleans compare the highlighted name
(home name at 16 when the selector at 34 equals 1, else away name at 20)
against home and away; hence at least one flag is set, and both are set
exactly when home and away names coincide. -/
theorem projector_highlight_flags (m : NormalizedMatch) (f : FormattedMatch)
    (h : projectMatch m = .ok f) :
    f.isHomeTeamHighlighted
        = decide ((if m.fields.getD 34 JsVal.vNull = JsVal.vNum 1
            then m.fields.getD 16 JsVal.vNull else m.fields.getD 20 JsVal.vNull)
          = m.fields.getD 16 JsVal.vNull) ∧
      f.isAwayTeamHighlighted
        = decide ((if m.fields.getD 34 JsVal.vNull = JsVal.vNum 1
            then m.fields.getD 16 JsVal.vNull else m.fields.getD 20 JsVal.vNull)
          = m.fields.getD 20 JsVal.vNull) ∧
      (f.isHomeTeamHighlighted = true ∨ f.isAwayTeamHighlighted = true) ∧
      ((f.isHomeTeamHighlighted = true ∧ f.isAwayTeamHighlighted = true)
        ↔ f.homeTeam = f.awayTeam) := by
  unfold projectMatch at h
  cases hjs : subtract90MinutesJS (m.fields.getD 8 JsVal.vNull) with
  | error e => rw [hjs] at h; exact absurd h (by simp)
  | ok t =>
    rw [hjs] at h
    have hf : projectFields m t = f := Except.ok.inj h
    subst hf
    have hHome : (projectFields m t).isHomeTeamHighlighted
        = decide ((if m.fields.getD 34 JsVal.vNull = JsVal.vNum 1
            then m.fields.getD 16 JsVal.vNull else m.fields.getD 20 JsVal.vNull)
          = m.fields.getD 16 JsVal.vNull) := rfl
    have hAway : (projectFields m t).isAwayTeamHighlighted
        = decide ((if m.fields.getD 34 JsVal.vNull = JsVal.vNum 1
            then m.fields.getD 16 JsVal.vNull else m.fields.getD 20 JsVal.vNull)
          = m.fields.getD 20 JsVal.vNull) := rfl
    have hHomeT : (projectFields m t).homeTeam = m.fields.getD 16 JsVal.vNull := rfl
    have hAwayT : (projectFields m t).awayTeam = m.fields.getD 20 JsVal.vNull := rfl
    refine ⟨hHome, hAway, ?_, ?_⟩
    · rw [hHome, hAway]
      by_cases hsel : m.fields.getD 34 JsVal.vNull = JsVal.vNum 1
      · rw [if_pos hsel]; left; simp
      · rw [if_neg hsel]; right; simp
    · rw [hHome, hAway, hHomeT, hAwayT]
      by_cases hsel : m.fields.getD 34 JsVal.vNull = JsVal.vNum 1
      · rw [if_pos hsel]
        simp
      · rw [if_neg hsel]
        simp
        exact eq_comm

/-- Witness for C5 at a concrete normalized match (equal — null — home and
away names, so both flags are set). -/
theorem projector_highlight_flags_witness :
    (⟨.vStr "Unknown League", "12:30PM", JsVal.vNull, JsVal.vNull, true, true,
        "undefinedNaN", "undefinedNaN"⟩ : FormattedMatch).isHomeTeamHighlighted = true
      ∨ (⟨.vStr "Unknown League", "12:30PM", JsVal.vNull, JsVal.vNull, true, true,
        "undefinedNaN", "undefinedNaN"⟩ : FormattedMatch).isAwayTeamHighlighted = true :=
  (projector_highlight_flags
    ⟨JsVal.vNull,
      [.vNull, .vNull, .vNull, .vNull, .vNull, .vNull, .vNull, .vNull, .vStr "2:00PM"]⟩
    ⟨.vStr "Unknown League", "12:30PM", JsVal.vNull, JsVal.vNull, true, true,
      "undefinedNaN", "undefinedNaN"⟩
    rfl).2.2.1

/-- C6 (code-bug evidence): the time adjuster's own documentation admits a
space before the AM/PM suffix ("02:15 PM"), but the normalization inserts a
second space and `split(' ')` then yields an empty period, so a PM input
with a space is treated as AM: "1:00 PM" (13:00) and "1:00AM" (01:00)
denote different times of day yet map to the same output. -/
theorem subtract90Minutes_space_collision :
    subtract90Minutes "1:00 PM" = "11:30PM" ∧ subtract90Minutes "1:00AM" = "11:30PM" := by
  exact ⟨by decide, by decide⟩

/-- C7: the spec's three test vectors for the time adjuster all hold. -/
theorem subtract90Minutes_test_vectors :
    subtract90Minutes "10:30AM" = "9:00AM" ∧ subtract90Minutes "12:15AM" = "10:45PM" ∧
      subtract90Minutes "1:00PM" = "11:30AM" := by
  exact ⟨by decide, by decide, by decide⟩

/-- C8: the normalize-and-project stages are a pure function of the raw
payload: two runs on the same fetch outcome produce the same output, for
any cache-busting timestamps and any inherited league-registry contents —
the timestamp reaches only the outbound request URL. -/
theorem pipeline_output_deterministic (encode : String → String) (apiUrlBase proxyUrl : String)
    (lid ts1 ts2 : Int) (env : FetchEnv) (lc1 lc2 : List JsVal) :
    (runWorker encode apiUrlBase proxyUrl lid ts1 env lc1).2
      = (runWorker encode apiUrlBase proxyUrl lid ts2 env lc2).2 := by
  show getFormattedMatchesAsJson env lc1 = getFormattedMatchesAsJson env lc2
  unfold getFormattedMatchesAsJson
  cases fetchAndProcessData env with
  | vArr a => exact matchesJsonOfPairs_lc_indep a.toList lc1 lc2
  | vNull => rfl
  | vBool b => rfl
  | vNum n => rfl
  | vStr s => rfl

/-- C9: `formatOdds` never returns the empty string — the final collapse
branch comparing the formatted string to `"0-0.01"` is unreachable, because
the only way to produce the suffix `"-0.01"` is `num2 = -1`, which the
suppression branch turns into no suffix at all. -/
theorem formatOdds_never_empty (num1 num2 : Int) : formatOdds num1 num2 ≠ "" := by
  unfold formatOdds
  by_cases hc : String.mk (intChars num1 ++ oddsSuffixChars num2) = "0-0.01"
  · exfalso
    have hdata : intChars num1 ++ oddsSuffixChars num2 = ['0', '-', '0', '.', '0', '1'] := by
      have hd := congrArg String.data hc
      simpa using hd
    exact formatOdds_collapse_unreachable num1 num2 hdata
  · rw [if_neg hc]
    intro hempty
    have hd : intChars num1 ++ oddsSuffixChars num2 = [] := congrArg String.data hempty
    exact intChars_ne_nil num1 (List.append_eq_nil.mp hd).1

/-- C10 counterexample: a payload whose single pair has an array in the
matches position, containing one match (identifier 7) with no string at
index 8: the projector throws on `subtract90Minutes(undefined)`, the catch
returns `[]`, and 0 output records ≠ 1 distinct identifier. -/
theorem projector_drops_match_without_time_string :
    (∀ p ∈ [jarr [jarr [.vNull, .vStr "L"], jarr [jarr [.vNull, .vNull, .vNull, .vNum 7]]]],
      isArr ((fieldsOf p).getD 1 JsVal.vNull) = true) ∧
      (matchesJsonOfPairs
          [jarr [jarr [.vNull, .vStr "L"], jarr [jarr [.vNull, .vNull, .vNull, .vNum 7]]]]
          []).length = 0 ∧
      ((allMatchesOf
          [jarr [jarr [.vNull, .vStr "L"], jarr [jarr [.vNull, .vNull, .vNull, .vNum 7]]]]).map
        matchId).toFinset.card = 1 := by
  exact ⟨by decide, by decide, by decide⟩

/-- C10 (amended): when additionally every traversed match carries a string
in its time field (index 8), the projector emits exactly one record per
distinct identifier: the output length equals the number of distinct
`match[3]` values across the traversal. -/
theorem projector_count_distinct_ids (pairs lc0 : List JsVal)
    (_harr : ∀ p ∈ pairs, isArr ((fieldsOf p).getD 1 JsVal.vNull) = true)
    (htime : ∀ m ∈ allMatchesOf pairs, isStr (m.fields.getD 8 JsVal.vNull) = true) :
    (matchesJsonOfPairs pairs lc0).length
      = ((allMatchesOf pairs).map matchId).toFinset.card := by
  have hout : fetchOddsData pairs lc0 = firstSeenDedup [] (allMatchesOf pairs) :=
    fetchOddsData_eq_dedup pairs lc0
  obtain ⟨out, hok, hlen⟩ := projectAll_length_of_ok (firstSeenDedup [] (allMatchesOf pairs))
    (fun m hm => htime m (firstSeenDedup_subset _ _ _ hm))
  have hcard : (firstSeenDedup [] (allMatchesOf pairs)).length
      = ((allMatchesOf pairs).map matchId).toFinset.card := by
    rw [firstSeenDedup_length]
    simp
  unfold matchesJsonOfPairs formatMatches
  rw [hout]
  by_cases hz : (firstSeenDedup [] (allMatchesOf pairs)).length = 0
  · rw [if_pos hz]
    show (List.length ([] : List FormattedMatch)) = _
    rw [← hcard, hz]
    rfl
  · rw [if_neg hz, hok]
    show out.length = _
    rw [hlen, hcard]

/-- Witness for C10 (amended): two matches sharing identifier 7 across two
leagues, both with proper time strings, produce exactly one output record. -/
theorem projector_count_distinct_ids_witness :
    (matchesJsonOfPairs
        [jarr [jarr [.vNull, .vStr "L1"],
               jarr [jarr [.vNull, .vNull, .vNull, .vNum 7, .vNull, .vNull, .vNull, .vNull,
                           .vStr "2:00PM"]]],
         jarr [jarr [.vNull, .vStr "L2"],
               jarr [jarr [.vNull, .vNull, .vNull, .vNum 7, .vNull, .vNull, .vNull, .vNull,
                           .vStr "3:00PM"]]]]
        []).length = 1 :=
  (projector_count_distinct_ids
      [jarr [jarr [.vNull, .vStr "L1"],
             jarr [jarr [.vNull, .vNull, .vNull, .vNum 7, .vNull, .vNull, .vNull, .vNull,
                         .vStr "2:00PM"]]],
       jarr [jarr [.vNull, .vStr "L2"],
             jarr [jarr [.vNull, .vNull, .vNull, .vNum 7, .vNull, .vNull, .vNull, .vNull,
                         .vStr "3:00PM"]]]]
      [] (by decide) (by decide)).trans (by decide)
